import Mathlib

/-!
Verification of the step/flow ordering subsystem of a workflow-automation
engine (the `Step` model: command resolution, webhook URL derivation,
single-step test runs, deletion with position compaction, telemetry hooks).

The repository ships the model's unit tests; the model implementation
itself is absent from the sources, so every operation below is modelled
from the specification (its doc comment says so) and checked against the
behaviours the unit tests pin down.
-/

namespace Automatisch

/-- A command (trigger or action capability) exposed by an integration app.
Only the `key` matters for resolution. -/
structure Command where
  key : String
  name : String
  deriving Repr, DecidableEq

/-- An app registry entry: a key plus ordered trigger and action commands. -/
structure App where
  key : String
  triggers : List Command
  actions : List Command
  deriving Repr, DecidableEq

/-- Modelled from the spec: the process-wide read-only App Registry is a list
of apps; `findOneByKey` (the registry lookup `App.findOneByKey`, absent from
the sources) returns the first app whose key matches, or none. -/
def findOneByKey (registry : List App) (k : String) : Option App :=
  registry.find? (fun a => a.key == k)

/-- A step of a flow. `stype` is the step's `type` field
(`"trigger"` or `"action"`); optional fields are `Option`. -/
structure Step where
  id : Nat
  flowId : Nat
  stype : String
  position : Nat
  appKey : Option String
  key : Option String
  webhookPath : Option String
  status : String
  deriving Repr, DecidableEq

/-- An execution-step audit record. `createdAt` is a timestamp. -/
structure ExecutionStep where
  id : Nat
  stepId : Nat
  createdAt : Nat
  deriving Repr, DecidableEq

/-- Modelled from the spec: the getter `Step.isTrigger` (absent from the
sources) holds exactly when the step's type is `"trigger"`. -/
def Step.isTrigger (s : Step) : Bool :=
  s.stype == "trigger"

/-- Modelled from the spec: the getter `Step.isAction` (absent from the
sources) holds exactly when the step's type is `"action"`. -/
def Step.isAction (s : Step) : Bool :=
  s.stype == "action"

/-- Modelled from the spec: the virtual attribute `Step.webhookUrl` (absent
from the sources) concatenates the process-wide configured webhook base URL
with `webhookPath`, and is null (`none`) when `webhookPath` is unset. -/
def Step.webhookUrl (base : String) (s : Step) : Option String :=
  match s.webhookPath with
  | some p => some (base ++ p)
  | none => none

/-- Modelled from the spec: `Step.computeWebhookPath` (absent from the
sources) is idempotent — it returns `webhookPath` unchanged when already
set, and otherwise derives a new opaque path, here supplied as `fresh`. -/
def Step.computeWebhookPath (fresh : String) (s : Step) : String :=
  match s.webhookPath with
  | some p => p
  | none => fresh

/-- Modelled from the spec: `Step.getWebhookUrl` (absent from the sources).
For trigger-type steps it awaits `computeWebhookPath` and returns the base
URL concatenated with the computed path; for action-type steps it returns
undefined (`none`) without computing a path. The boolean records whether
`computeWebhookPath` was invoked. -/
def Step.getWebhookUrl (base fresh : String) (s : Step) : Option String × Bool :=
  if s.isTrigger then
    (some (base ++ s.computeWebhookPath fresh), true)
  else
    (none, false)

/-- Modelled from the spec: `Step.getApp` (absent from the sources) resolves
`appKey` via the registry and returns null (`none`) with no lookup attempted
when `appKey` is unset. The second component counts registry lookups. -/
def Step.getApp (registry : List App) (s : Step) : Option App × Nat :=
  match s.appKey with
  | none => (none, 0)
  | some k => (findOneByKey registry k, 1)

/-- Modelled from the spec: the Command Resolver (§4.1, absent from the
sources). Given the step's app key, a command type and the command key,
returns the matching command from the resolved app's trigger or action
list, or `none` when the app key or the command key is unset, the app is
unknown, or no command matches. -/
def resolve (registry : List App) (appKey : Option String) (ctype : String)
    (commandKey : Option String) : Option Command :=
  match appKey with
  | none => none
  | some ak =>
    match findOneByKey registry ak with
    | none => none
    | some app =>
      match commandKey with
      | none => none
      | some ck =>
        (if ctype == "trigger" then app.triggers else app.actions).find?
          (fun c => c.key == ck)

/-- Modelled from the spec: `Step.getTriggerCommand` (absent from the
sources) is the resolver fixed to `type = trigger`, returning null when the
step's own type is not trigger or when `key` is unset. -/
def Step.getTriggerCommand (registry : List App) (s : Step) : Option Command :=
  if s.isTrigger then resolve registry s.appKey "trigger" s.key else none

/-- Modelled from the spec: `Step.getActionCommand` (absent from the
sources) is the resolver fixed to `type = action`, returning null when the
step's own type is not action or when `key` is unset. -/
def Step.getActionCommand (registry : List App) (s : Step) : Option Command :=
  if s.isAction then resolve registry s.appKey "action" s.key else none

/-- Modelled from the spec: `Step.test` (absent from the sources) invokes
the single-step execution service with the step's id; on success the step's
status becomes `"completed"`, on failure the error propagates unchanged.
The second component records the ids the service was invoked with. -/
def Step.test (service : Nat → Except String Unit) (s : Step) :
    Except String Step × List Nat :=
  (match service s.id with
   | Except.ok _ => Except.ok { s with status := "completed" }
   | Except.error e => Except.error e,
   [s.id])

/-- Modelled from the spec: the `lastExecutionStep` relation orders a step's
execution steps by `created_at` descending and takes the first; ties are
broken by insertion order, so a later insertion wins. `lastMaxAux a l`
returns the last element of `a :: l` attaining the maximal `createdAt`. -/
def lastMaxAux (a : ExecutionStep) : List ExecutionStep → ExecutionStep
  | [] => a
  | e :: t => lastMaxAux (if a.createdAt ≤ e.createdAt then e else a) t

/-- The last element of a list attaining the maximal `createdAt`, or
`none` for the empty list. -/
def lastMax? : List ExecutionStep → Option ExecutionStep
  | [] => none
  | a :: t => some (lastMaxAux a t)

/-- Modelled from the spec: `Step.getLastExecutionStep` (absent from the
sources) returns the execution step of this step with the maximal
`createdAt` (ties broken by insertion order), or `none` when the step has
never executed. `db` is the execution-step table in insertion order. -/
def Step.getLastExecutionStep (db : List ExecutionStep) (s : Step) :
    Option ExecutionStep :=
  lastMax? (db.filter (fun e => e.stepId == s.id))

/-- Modelled from the spec: step deletion with position compaction (§4.6,
absent from the sources). `steps` is the owning flow's step list ordered by
ascending position; the deleted step is removed and every remaining sibling
with a greater position has its position decremented by exactly 1.
`shiftAfter p` is the per-sibling renumbering. -/
def shiftAfter (p : Nat) (t : Step) : Step :=
  if p < t.position then { t with position := t.position - 1 } else t

/-- Modelled from the spec: step deletion (§4.6, absent from the sources) —
remove the step by id, then renumber the remaining siblings. -/
def deleteStep (steps : List Step) (s : Step) : List Step :=
  (steps.filter (fun t => t.id != s.id)).map (shiftAfter s.position)

/-- Modelled from the spec: the cascade of step deletion onto the
execution-step table (absent from the sources) — all execution steps whose
`stepId` is the deleted step's id are removed. -/
def deleteStepCascade (db : List ExecutionStep) (s : Step) : List ExecutionStep :=
  db.filter (fun e => e.stepId != s.id)

/-- Modelled from the spec: the telemetry boundary of the `$afterInsert` and
`$afterUpdate` hooks (absent from the sources). When the primary operation
succeeds the sink is notified with the resulting step and any sink failure
is caught and discarded; the primary outcome is returned unchanged. The
boolean records whether the sink was notified. -/
def withTelemetry (primary : Except String Step)
    (sink : Step → Except String Unit) : Except String Step × Bool :=
  match primary with
  | Except.ok s =>
    match sink s with
    | Except.ok _ => (Except.ok s, true)
    | Except.error _ => (Except.ok s, true)
  | Except.error e => (Except.error e, false)

/-- Modelled from the spec: the `$afterInsert` hook notifies the telemetry
sink `stepCreated` after a step creation, fire-and-forget. -/
def afterInsert (primary : Except String Step)
    (stepCreated : Step → Except String Unit) : Except String Step × Bool :=
  withTelemetry primary stepCreated

/-- Modelled from the spec: the `$afterUpdate` hook notifies the telemetry
sink `stepUpdated` after a step update, fire-and-forget. -/
def afterUpdate (primary : Except String Step)
    (stepUpdated : Step → Except String Unit) : Except String Step × Bool :=
  withTelemetry primary stepUpdated

/-! Concrete fixtures mirroring the unit tests. -/

/-- The webhook app of the registry fixture. -/
def webhookApp : App :=
  { key := "webhook", triggers := [{ key := "catchRawWebhook", name := "Catch raw webhook" }], actions := [] }

/-- The ntfy app of the registry fixture. -/
def ntfyApp : App :=
  { key := "ntfy", triggers := [], actions := [{ key := "sendMessage", name := "Send message" }] }

/-- A registry fixture with the two apps the unit tests use. -/
def sampleRegistry : List App := [webhookApp, ntfyApp]

/-- A configured trigger step fixture. -/
def sampleTrigger : Step :=
  { id := 1, flowId := 1, stype := "trigger", position := 1,
    appKey := some "webhook", key := some "catchRawWebhook",
    webhookPath := some "/webhook-path", status := "incomplete" }

/-- A configured action step fixture, already completed. -/
def sampleAction : Step :=
  { id := 2, flowId := 1, stype := "action", position := 2,
    appKey := some "ntfy", key := some "sendMessage",
    webhookPath := none, status := "completed" }

/-- An unconfigured step fixture: no app key, no command key. -/
def sampleBare : Step :=
  { id := 3, flowId := 1, stype := "action", position := 3,
    appKey := none, key := none, webhookPath := none, status := "incomplete" }

/-- First execution step fixture for `sampleTrigger`. -/
def execE1 : ExecutionStep := { id := 1, stepId := 1, createdAt := 100 }

/-- Second execution step fixture for `sampleTrigger`, created after `execE1`. -/
def execE2 : ExecutionStep := { id := 2, stepId := 1, createdAt := 200 }

/-! Theorems, one per claim. -/

/-- Claim C10: `isTrigger` holds exactly when the step's type is
`"trigger"`, `isAction` exactly when it is `"action"`, and for a step with
a valid type exactly one of the two predicates is true. -/
theorem isTrigger_isAction_exclusive (s : Step) :
    (s.isTrigger = true ↔ s.stype = "trigger") ∧
    (s.isAction = true ↔ s.stype = "action") ∧
    (s.stype = "trigger" ∨ s.stype = "action" →
      (s.isTrigger = true ∧ s.isAction = false) ∨
      (s.isTrigger = false ∧ s.isAction = true)) := by
  refine ⟨by simp [Step.isTrigger], by simp [Step.isAction], ?_⟩
  rintro (h | h) <;> simp [Step.isTrigger, Step.isAction, h]

/-- Witness for C10 at the trigger and action fixtures. -/
theorem isTrigger_isAction_exclusive_witness :
    ((sampleTrigger.isTrigger = true ∧ sampleTrigger.isAction = false) ∨
      (sampleTrigger.isTrigger = false ∧ sampleTrigger.isAction = true)) ∧
    ((sampleAction.isTrigger = true ∧ sampleAction.isAction = false) ∨
      (sampleAction.isTrigger = false ∧ sampleAction.isAction = true)) :=
  ⟨(isTrigger_isAction_exclusive sampleTrigger).2.2 (Or.inl rfl),
   (isTrigger_isAction_exclusive sampleAction).2.2 (Or.inr rfl)⟩

/-- Claim C5: the derived `webhookUrl` is the configured webhook base URL
concatenated with `webhookPath` when the latter is set, and null when it is
unset. -/
theorem webhookUrl_concat_or_null (base : String) (s : Step) :
    (∀ p, s.webhookPath = some p → s.webhookUrl base = some (base ++ p)) ∧
    (s.webhookPath = none → s.webhookUrl base = none) := by
  constructor
  · intro p hp
    simp [Step.webhookUrl, hp]
  · intro hp
    simp [Step.webhookUrl, hp]

/-- Witness for C5: the unit test's base URL and path, and an unset path. -/
theorem webhookUrl_concat_or_null_witness :
    sampleTrigger.webhookUrl "https://automatisch.io" = some "https://automatisch.io/webhook-path" ∧
    sampleAction.webhookUrl "https://automatisch.io" = none :=
  ⟨(webhookUrl_concat_or_null "https://automatisch.io" sampleTrigger).1 "/webhook-path" rfl,
   (webhookUrl_concat_or_null "https://automatisch.io" sampleAction).2 rfl⟩

/-- Claim C6: for trigger-type steps `getWebhookUrl` computes the webhook
path and returns the base URL concatenated with it; for action-type steps
it returns undefined (`none`) and does not invoke `computeWebhookPath`. -/
theorem getWebhookUrl_trigger_action (base fresh : String) (s : Step) :
    (s.stype = "trigger" →
      s.getWebhookUrl base fresh = (some (base ++ s.computeWebhookPath fresh), true)) ∧
    (s.stype = "action" → s.getWebhookUrl base fresh = (none, false)) := by
  constructor <;> intro h <;>
    simp [Step.getWebhookUrl, Step.isTrigger, h]

/-- Witness for C6 at the trigger and action fixtures. -/
theorem getWebhookUrl_trigger_action_witness :
    sampleTrigger.getWebhookUrl "https://automatisch.io" "/fresh" =
      (some ("https://automatisch.io" ++ sampleTrigger.computeWebhookPath "/fresh"), true) ∧
    sampleAction.getWebhookUrl "https://automatisch.io" "/fresh" = (none, false) :=
  ⟨(getWebhookUrl_trigger_action "https://automatisch.io" "/fresh" sampleTrigger).1 rfl,
   (getWebhookUrl_trigger_action "https://automatisch.io" "/fresh" sampleAction).2 rfl⟩

/-- Claim C8: when `appKey` is unset, `getApp` returns null and performs no
registry lookup (the lookup counter stays 0); absence is a value of the
total function, never an error. -/
theorem getApp_unset_no_lookup (registry : List App) (s : Step)
    (h : s.appKey = none) : s.getApp registry = (none, 0) := by
  simp [Step.getApp, h]

/-- Witness for C8 at the unconfigured step fixture. -/
theorem getApp_unset_no_lookup_witness :
    sampleBare.getApp sampleRegistry = (none, 0) :=
  getApp_unset_no_lookup sampleRegistry sampleBare rfl

/-- Claim C4: `test` invokes the single-step execution service with exactly
the step's id; on service success the returned step has status
`"completed"` whatever the prior status was, and on service failure the
error propagates unchanged (no step is returned, so no status changes). -/
theorem test_invokes_service_and_completes (service : Nat → Except String Unit) (s : Step) :
    (s.test service).2 = [s.id] ∧
    (service s.id = Except.ok () →
      (s.test service).1 = Except.ok { s with status := "completed" }) ∧
    (∀ e, service s.id = Except.error e →
      (s.test service).1 = Except.error e) := by
  refine ⟨rfl, ?_, ?_⟩
  · intro h
    simp [Step.test, h]
  · intro e h
    simp [Step.test, h]

/-- Witness for C4: a succeeding service on the already-completed action
fixture (re-testing keeps `"completed"`), and a failing service. -/
theorem test_invokes_service_and_completes_witness :
    (sampleAction.test (fun _ => Except.ok ())).1 =
      Except.ok { sampleAction with status := "completed" } ∧
    (sampleAction.test (fun _ => Except.error "boom")).1 = Except.error "boom" :=
  ⟨(test_invokes_service_and_completes (fun _ => Except.ok ()) sampleAction).2.1 rfl,
   (test_invokes_service_and_completes (fun _ => Except.error "boom") sampleAction).2.2 "boom" rfl⟩

/-- Claim C2: after deleting a step, no execution step with the deleted
step's `stepId` remains in the execution-step table. -/
theorem deleteStepCascade_no_orphans (db : List ExecutionStep) (s : Step) :
    (deleteStepCascade db s).all (fun e => e.stepId != s.id) = true := by
  rw [List.all_eq_true]
  intro e he
  rw [deleteStepCascade, List.mem_filter] at he
  exact he.2

/-- Claim C9: every successful step creation notifies the telemetry sink
`stepCreated` and every successful update notifies `stepUpdated`, and the
hooks return the primary operation's outcome unchanged no matter whether
the sink fails. -/
theorem telemetry_fire_and_forget (primary : Except String Step)
    (created updated : Step → Except String Unit) :
    (afterInsert primary created).1 = primary ∧
    (afterUpdate primary updated).1 = primary ∧
    (∀ s, primary = Except.ok s →
      (afterInsert primary created).2 = true ∧ (afterUpdate primary updated).2 = true) := by
  refine ⟨?_, ?_, ?_⟩
  · cases primary with
    | ok s =>
      cases h : created s <;> simp [afterInsert, withTelemetry, h]
    | error e => rfl
  · cases primary with
    | ok s =>
      cases h : updated s <;> simp [afterUpdate, withTelemetry, h]
    | error e => rfl
  · intro s hs
    subst hs
    constructor
    · cases h : created s <;> simp [afterInsert, withTelemetry, h]
    · cases h : updated s <;> simp [afterUpdate, withTelemetry, h]

/-- Witness for C9: a successful creation and update with a sink that
throws; the outcome is unchanged and the sink was notified. -/
theorem telemetry_fire_and_forget_witness :
    (afterInsert (Except.ok sampleTrigger) (fun _ => Except.error "boom")).1 =
      Except.ok sampleTrigger ∧
    (afterInsert (Except.ok sampleTrigger) (fun _ => Except.error "boom")).2 = true ∧
    (afterUpdate (Except.ok sampleTrigger) (fun _ => Except.error "boom")).2 = true := by
  have h := telemetry_fire_and_forget (Except.ok sampleTrigger)
    (fun _ => Except.error "boom") (fun _ => Except.error "boom")
  exact ⟨h.1, (h.2.2 sampleTrigger rfl).1, (h.2.2 sampleTrigger rfl).2⟩

/-- The resolver returns `none` whenever the command key is unset. -/
lemma resolve_key_unset (registry : List App) (ak : Option String) (ctype : String) :
    resolve registry ak ctype none = none := by
  cases ak with
  | none => rfl
  | some a =>
    cases h : findOneByKey registry a <;> simp [resolve, h]

/-- When the app resolves, the resolver is a scan of the selected command
list for the command key. -/
lemma resolve_eq_find (registry : List App) (ak k : String) (ctype : String) (app : App)
    (happ : findOneByKey registry ak = some app) :
    resolve registry (some ak) ctype (some k) =
      (if ctype == "trigger" then app.triggers else app.actions).find?
        (fun c => c.key == k) := by
  simp [resolve, happ]

/-- Any command the resolver returns carries exactly the requested key. -/
lemma resolve_returns_requested_key (registry : List App) (ak : Option String)
    (ctype : String) (ck : Option String) (c : Command)
    (h : resolve registry ak ctype ck = some c) : ck = some c.key := by
  cases ak with
  | none => simp [resolve] at h
  | some a =>
    cases happ : findOneByKey registry a with
    | none => simp [resolve, happ] at h
    | some app =>
      cases ck with
      | none => simp [resolve, happ] at h
      | some k =>
        rw [resolve_eq_find registry a k ctype app happ] at h
        have hp := List.find?_some h
        have : c.key = k := by simpa using hp
        rw [this]

/-- Claim C3: with `appKey` and `key` set and the app resolved,
`getTriggerCommand` on a trigger step (resp. `getActionCommand` on an
action step) scans the app's trigger (resp. action) list for the step's
key, and any returned command's key equals the step's key; with `key`
unset both return null. -/
theorem getCommand_resolution (registry : List App) (s : Step) :
    (s.key = none →
      s.getTriggerCommand registry = none ∧ s.getActionCommand registry = none) ∧
    (∀ c, s.getTriggerCommand registry = some c → some c.key = s.key) ∧
    (∀ c, s.getActionCommand registry = some c → some c.key = s.key) ∧
    (∀ ak k app, s.stype = "trigger" → s.appKey = some ak → s.key = some k →
      findOneByKey registry ak = some app →
      s.getTriggerCommand registry = app.triggers.find? (fun c => c.key == k)) ∧
    (∀ ak k app, s.stype = "action" → s.appKey = some ak → s.key = some k →
      findOneByKey registry ak = some app →
      s.getActionCommand registry = app.actions.find? (fun c => c.key == k)) := by
  refine ⟨?_, ?_, ?_, ?_, ?_⟩
  · intro hk
    constructor
    · rw [Step.getTriggerCommand]
      cases hT : s.isTrigger <;> simp [hk, resolve_key_unset]
    · rw [Step.getActionCommand]
      cases hA : s.isAction <;> simp [hk, resolve_key_unset]
  · intro c hc
    rw [Step.getTriggerCommand] at hc
    by_cases hT : s.isTrigger
    · rw [if_pos hT] at hc
      exact (resolve_returns_requested_key registry s.appKey "trigger" s.key c hc).symm
    · rw [if_neg hT] at hc
      exact absurd hc (by simp)
  · intro c hc
    rw [Step.getActionCommand] at hc
    by_cases hA : s.isAction
    · rw [if_pos hA] at hc
      exact (resolve_returns_requested_key registry s.appKey "action" s.key c hc).symm
    · rw [if_neg hA] at hc
      exact absurd hc (by simp)
  · intro ak k app hT hak hk happ
    rw [Step.getTriggerCommand, if_pos (by simp [Step.isTrigger, hT]), hak, hk,
      resolve_eq_find registry ak k "trigger" app happ]
    simp
  · intro ak k app hA hak hk happ
    rw [Step.getActionCommand, if_pos (by simp [Step.isAction, hA]), hak, hk,
      resolve_eq_find registry ak k "action" app happ]
    simp

/-- Witness for C3: the registry fixture resolves the trigger fixture to
the webhook catch command and the action fixture to the ntfy send command,
while the keyless fixture resolves to null. -/
theorem getCommand_resolution_witness :
    sampleTrigger.getTriggerCommand sampleRegistry =
      webhookApp.triggers.find? (fun c => c.key == "catchRawWebhook") ∧
    sampleAction.getActionCommand sampleRegistry =
      ntfyApp.actions.find? (fun c => c.key == "sendMessage") ∧
    sampleBare.getTriggerCommand sampleRegistry = none ∧
    sampleBare.getActionCommand sampleRegistry = none ∧
    some ({ key := "catchRawWebhook", name := "Catch raw webhook" } : Command).key =
      sampleTrigger.key := by
  have hbare := (getCommand_resolution sampleRegistry sampleBare).1 rfl
  refine ⟨?_, ?_, hbare.1, hbare.2, ?_⟩
  · exact (getCommand_resolution sampleRegistry sampleTrigger).2.2.2.1
      "webhook" "catchRawWebhook" webhookApp rfl rfl rfl rfl
  · exact (getCommand_resolution sampleRegistry sampleAction).2.2.2.2
      "ntfy" "sendMessage" ntfyApp rfl rfl rfl rfl
  · exact (getCommand_resolution sampleRegistry sampleTrigger).2.1
      { key := "catchRawWebhook", name := "Catch raw webhook" } rfl

/-- `lastMaxAux a l` splits `a :: l` into a prefix of elements no newer
than the result and a suffix of elements strictly older than the result:
it is the last element attaining the maximal `createdAt`. -/
lemma lastMaxAux_decomp (l : List ExecutionStep) (a : ExecutionStep) :
    ∃ l1 l2, a :: l = l1 ++ lastMaxAux a l :: l2 ∧
      a.createdAt ≤ (lastMaxAux a l).createdAt ∧
      (∀ e ∈ l1, e.createdAt ≤ (lastMaxAux a l).createdAt) ∧
      (∀ e ∈ l2, e.createdAt < (lastMaxAux a l).createdAt) := by
  induction l generalizing a with
  | nil =>
    exact ⟨[], [], rfl, Nat.le_refl _, by simp, by simp⟩
  | cons e t ih =>
    by_cases h : a.createdAt ≤ e.createdAt
    · have hrw : lastMaxAux a (e :: t) = lastMaxAux e t := by
        simp [lastMaxAux, h]
      rw [hrw]
      obtain ⟨l1, l2, heq, hacc, h1, h2⟩ := ih e
      refine ⟨a :: l1, l2, ?_, h.trans hacc, ?_, h2⟩
      · rw [List.cons_append, ← heq]
      · intro x hx
        rcases List.mem_cons.mp hx with rfl | hx
        · exact h.trans hacc
        · exact h1 x hx
    · have hrw : lastMaxAux a (e :: t) = lastMaxAux a t := by
        simp [lastMaxAux, h]
      rw [hrw]
      have hel : e.createdAt < a.createdAt := Nat.lt_of_not_le h
      obtain ⟨l1, l2, heq, hacc, h1, h2⟩ := ih a
      cases l1 with
      | nil =>
        obtain ⟨ha, ht⟩ := List.cons.inj heq
        refine ⟨[], e :: t, ?_, hacc, by simp, ?_⟩
        · rw [List.nil_append, ← ha]
        · intro x hx
          rcases List.mem_cons.mp hx with rfl | hx
          · rw [← ha]
            exact hel
          · exact h2 x (ht ▸ hx)
      | cons b l1' =>
        obtain ⟨hab, ht⟩ := List.cons.inj heq
        refine ⟨a :: e :: l1', l2, ?_, hacc, ?_, h2⟩
        · exact congrArg (fun x => a :: e :: x) ht
        · intro x hx
          rcases List.mem_cons.mp hx with rfl | hx
          · exact hacc
          · rcases List.mem_cons.mp hx with rfl | hx
            · exact Nat.le_of_lt (Nat.lt_of_lt_of_le hel hacc)
            · exact h1 x (hab ▸ List.mem_cons_of_mem b hx)

/-- Claim C7: `getLastExecutionStep` returns null exactly when the step has
no execution steps; otherwise it returns an execution step of this step
with the maximal `createdAt`, and it is the last such one in insertion
order (everything before it is no newer, everything after it is strictly
older). -/
theorem getLastExecutionStep_last_max (db : List ExecutionStep) (s : Step) :
    (db.filter (fun e => e.stepId == s.id) = [] → s.getLastExecutionStep db = none) ∧
    (db.filter (fun e => e.stepId == s.id) ≠ [] →
      ∃ r, s.getLastExecutionStep db = some r) ∧
    (∀ r, s.getLastExecutionStep db = some r →
      r ∈ db ∧ r.stepId = s.id ∧
      (∀ e ∈ db, e.stepId = s.id → e.createdAt ≤ r.createdAt) ∧
      ∃ l1 l2, db.filter (fun e => e.stepId == s.id) = l1 ++ r :: l2 ∧
        (∀ e ∈ l1, e.createdAt ≤ r.createdAt) ∧
        (∀ e ∈ l2, e.createdAt < r.createdAt)) := by
  refine ⟨?_, ?_, ?_⟩
  · intro hf
    rw [Step.getLastExecutionStep, hf]
    rfl
  · intro hf
    cases hfe : db.filter (fun e => e.stepId == s.id) with
    | nil => exact absurd hfe hf
    | cons a t =>
      exact ⟨lastMaxAux a t, by rw [Step.getLastExecutionStep, hfe]; rfl⟩
  · intro r hr
    cases hfe : db.filter (fun e => e.stepId == s.id) with
    | nil =>
      rw [Step.getLastExecutionStep, hfe] at hr
      exact absurd hr (by simp [lastMax?])
    | cons a t =>
      rw [Step.getLastExecutionStep, hfe] at hr
      have hrm : lastMaxAux a t = r := by simpa [lastMax?] using hr
      obtain ⟨l1, l2, heq, _, h1, h2⟩ := lastMaxAux_decomp t a
      rw [hrm] at heq h1 h2
      have hrfilter : r ∈ db.filter (fun e => e.stepId == s.id) := by
        rw [hfe, heq]
        exact List.mem_append.mpr (Or.inr (List.mem_cons_self r l2))
      have hrdb : r ∈ db := List.mem_of_mem_filter hrfilter
      have hrid : r.stepId = s.id := by
        simpa using (List.mem_filter.mp hrfilter).2
      refine ⟨hrdb, hrid, ?_, l1, l2, hfe.symm ▸ heq, h1, h2⟩
      intro e he heid
      have hef : e ∈ db.filter (fun x => x.stepId == s.id) :=
        List.mem_filter.mpr ⟨he, by simpa using heid⟩
      rw [hfe, heq] at hef
      rcases List.mem_append.mp hef with hef | hef
      · exact h1 e hef
      · rcases List.mem_cons.mp hef with rfl | hef
        · exact Nat.le_refl _
        · exact Nat.le_of_lt (h2 e hef)

/-- Witness for C7: on an empty table the result is null; on the two
execution-step fixtures (the second created after the first) the result is
the second, which belongs to the trigger fixture. -/
theorem getLastExecutionStep_last_max_witness :
    sampleBare.getLastExecutionStep [] = none ∧
    (∃ r, sampleTrigger.getLastExecutionStep [execE1, execE2] = some r) ∧
    execE2 ∈ [execE1, execE2] ∧ execE2.stepId = sampleTrigger.id ∧
    sampleTrigger.getLastExecutionStep [execE1, execE2] = some execE2 := by
  have h2 := (getLastExecutionStep_last_max [execE1, execE2] sampleTrigger).2.1 (by decide)
  have h3 := (getLastExecutionStep_last_max [execE1, execE2] sampleTrigger).2.2 execE2 (by decide)
  exact ⟨(getLastExecutionStep_last_max [] sampleBare).1 rfl, h2, h3.1, h3.2.1, by decide⟩

/-- Mapping a step list to ids commutes with filtering on the id. -/
lemma map_id_filter (l : List Step) (x : Nat) :
    (l.filter (fun t => t.id != x)).map Step.id =
      (l.map Step.id).filter (fun i => i != x) := by
  induction l with
  | nil => rfl
  | cons a l ih =>
    simp only [List.map_cons, List.filter_cons]
    by_cases h : a.id = x <;> simp [h, ih]

/-- Renumbering never changes a step's id. -/
lemma shiftAfter_id (p : Nat) (t : Step) : (shiftAfter p t).id = t.id := by
  rw [shiftAfter]
  by_cases h : p < t.position <;> simp [h]

/-- In a flow whose step ids are distinct, the ids on either side of a
step differ from that step's id. -/
lemma nodup_split_id (l1 l2 : List Step) (s : Step)
    (h : ((l1 ++ s :: l2).map Step.id).Nodup) :
    (∀ t ∈ l1, t.id ≠ s.id) ∧ (∀ t ∈ l2, t.id ≠ s.id) := by
  rw [List.map_append, List.map_cons, List.nodup_append] at h
  obtain ⟨_, h2, hdisj⟩ := h
  constructor
  · intro t ht heq
    exact hdisj (List.mem_map_of_mem Step.id ht)
      (heq ▸ List.mem_cons_self s.id (l2.map Step.id))
  · intro t ht heq
    exact (List.nodup_cons.mp h2).1 (heq ▸ List.mem_map_of_mem Step.id ht)

/-- Claim C1: deleting a step from a flow whose steps occupy contiguous
positions 1..N removes exactly that step, keeps the remaining siblings in
their relative order, and renumbers them so that they occupy contiguous
positions 1..N-1 (those past the deleted position are decremented by 1). -/
theorem delete_position_compaction (steps : List Step) (s : Step)
    (hnodup : (steps.map Step.id).Nodup)
    (hpos : steps.map Step.position = List.range' 1 steps.length)
    (hmem : s ∈ steps) :
    (deleteStep steps s).map Step.id =
      (steps.map Step.id).filter (fun i => i != s.id) ∧
    s.id ∉ (deleteStep steps s).map Step.id ∧
    (deleteStep steps s).map Step.position =
      List.range' 1 (steps.length - 1) := by
  have hids : (deleteStep steps s).map Step.id =
      (steps.map Step.id).filter (fun i => i != s.id) := by
    rw [deleteStep, List.map_map, ← map_id_filter]
    exact List.map_congr_left (fun t _ => shiftAfter_id s.position t)
  have hnotmem : s.id ∉ (deleteStep steps s).map Step.id := by
    rw [hids]
    intro hmem'
    have := (List.mem_filter.mp hmem').2
    simp at this
  obtain ⟨l1, l2, rfl⟩ := List.append_of_mem hmem
  refine ⟨hids, hnotmem, ?_⟩
  obtain ⟨hf1, hf2⟩ := nodup_split_id l1 l2 s hnodup
  have hlen : (l1 ++ s :: l2).length = l2.length + 1 + l1.length := by
    simp only [List.length_append, List.length_cons]
    omega
  rw [List.map_append, List.map_cons, hlen,
    ← List.range'_append_1 1 l1.length (l2.length + 1), List.range'_succ] at hpos
  obtain ⟨h1, hcons⟩ := List.append_inj hpos (by simp)
  obtain ⟨hspos, h2⟩ := List.cons.inj hcons
  have hfilter : (l1 ++ s :: l2).filter (fun t => t.id != s.id) = l1 ++ l2 := by
    have e1 : l1.filter (fun t => t.id != s.id) = l1 :=
      List.filter_eq_self.mpr (fun t ht => by simpa using hf1 t ht)
    have e2 : l2.filter (fun t => t.id != s.id) = l2 :=
      List.filter_eq_self.mpr (fun t ht => by simpa using hf2 t ht)
    simp [List.filter_append, List.filter_cons, e1, e2]
  rw [deleteStep, hfilter, List.map_map, List.map_append]
  have hm1 : l1.map (Step.position ∘ shiftAfter s.position) =
      List.range' 1 l1.length := by
    have hc : ∀ t ∈ l1, (Step.position ∘ shiftAfter s.position) t = Step.position t := by
      intro t ht
      have hmem' : t.position ∈ List.range' 1 l1.length :=
        h1 ▸ List.mem_map_of_mem Step.position ht
      have hlt : t.position < 1 + l1.length := (List.mem_range'_1.mp hmem').2
      simp only [Function.comp_apply, shiftAfter]
      rw [if_neg (by omega)]
    rw [List.map_congr_left hc, h1]
  have hm2 : l2.map (Step.position ∘ shiftAfter s.position) =
      List.range' (1 + l1.length) l2.length := by
    have hc : ∀ t ∈ l2, (Step.position ∘ shiftAfter s.position) t = t.position - 1 := by
      intro t ht
      have hmem' : t.position ∈ List.range' (1 + l1.length + 1) l2.length :=
        h2 ▸ List.mem_map_of_mem Step.position ht
      have hge : 1 + l1.length + 1 ≤ t.position := (List.mem_range'_1.mp hmem').1
      simp only [Function.comp_apply, shiftAfter]
      rw [if_pos (by omega)]
    rw [List.map_congr_left hc]
    have hmm : l2.map (fun t => t.position - 1) =
        (l2.map Step.position).map (fun x => x - 1) := by
      rw [List.map_map]
      rfl
    rw [hmm, h2, List.map_sub_range' 1 (1 + l1.length + 1) l2.length (by omega)]
    congr 1
  rw [hm1, hm2, List.range'_append_1 1 l1.length l2.length]
  congr 1
  simp only [List.length_append, List.length_cons]
  omega

/-- The trigger step of the deletion fixture flow, at position 1. -/
def flowTrigger : Step :=
  { id := 10, flowId := 2, stype := "trigger", position := 1,
    appKey := none, key := none, webhookPath := none, status := "incomplete" }

/-- The action step of the deletion fixture flow at position 2. -/
def flowAction2 : Step :=
  { id := 11, flowId := 2, stype := "action", position := 2,
    appKey := none, key := none, webhookPath := none, status := "incomplete" }

/-- The action step of the deletion fixture flow at position 3 (deleted). -/
def flowAction3 : Step :=
  { id := 12, flowId := 2, stype := "action", position := 3,
    appKey := none, key := none, webhookPath := none, status := "incomplete" }

/-- The action step of the deletion fixture flow at position 4. -/
def flowAction4 : Step :=
  { id := 13, flowId := 2, stype := "action", position := 4,
    appKey := none, key := none, webhookPath := none, status := "incomplete" }

/-- The deletion fixture flow: steps at positions 1 (trigger), 2, 3, 4. -/
def flowSteps : List Step := [flowTrigger, flowAction2, flowAction3, flowAction4]

/-- Witness for C1: deleting the position-3 step of the four-step fixture
flow leaves the other three steps, in order, at positions 1, 2, 3. -/
theorem delete_position_compaction_witness :
    (deleteStep flowSteps flowAction3).map Step.id =
      (flowSteps.map Step.id).filter (fun i => i != flowAction3.id) ∧
    flowAction3.id ∉ (deleteStep flowSteps flowAction3).map Step.id ∧
    (deleteStep flowSteps flowAction3).map Step.position =
      List.range' 1 (flowSteps.length - 1) :=
  delete_position_compaction flowSteps flowAction3 (by decide) (by decide) (by decide)

end Automatisch
